import Mathlib

/-!
Verification development for the nikonov-alex components runtime.

The definitions below are a shallow embedding of `src/sources/core.ts`
(the component base class `_Component` and the form specialization
`_FormComponent`) together with the two event-partitioning functions of
the latest revision in `src/index.ts`.  States are an arbitrary type `σ`
with decidable equality (JavaScript reference identity on the committed
state value is modelled as equality); the host DOM tree is modelled by
`VTree` in first-child / next-sibling form, which is exactly how the host
exposes a node's children.
-/

/-- A host visual-element node: `nil` is the absence of a node, and
`node kind attrs child sibling` is an element with tag name `kind`, its
attribute list, its first child and its next sibling. -/
inductive VTree where
  | nil : VTree
  | node (kind : String) (attrs : List (String × String)) (child : VTree) (sibling : VTree) : VTree
deriving DecidableEq, Repr

/-- `nodeName` of a host node (mirrors `this._root.nodeName` in `_redraw`). -/
def VTree.nodeName : VTree → String
  | .nil => "#null"
  | .node k _ _ _ => k

/-- A mutation of the mounted host tree: either a whole-subtree swap of the
mounted root (`_root.replaceWith(rendered)` in `_redraw`) or an in-place
patch performed by the tree-merge pass. -/
inductive HostMut where
  | replace (old new : VTree)
  | patch
deriving DecidableEq, Repr

/-- Modelled from the spec: the external `morphdom` package is out of scope
("delegates the leaf-level tree-patch algorithm to an external capability"),
so its in-place merge is modelled from the spec's description — "walks both
trees and mutates the mounted tree to match the candidate node-by-node and
attribute-by-attribute, skipping any matched pair of subtrees that are
already structurally equal".  The skip is the `onBeforeElUpdated` callback
defined in `src/sources/core.ts` (`( fromEl, toEl ) => !fromEl.isEqualNode( toEl )`):
an equal pair produces no mutations at all.  The result is the merged
mounted tree together with the list of host mutations performed. -/
def morph : VTree → VTree → VTree × List HostMut
  | .nil, .nil => (.nil, [])
  | .nil, .node k2 a2 c2 s2 => (.node k2 a2 c2 s2, [HostMut.patch])
  | .node _ _ _ _, .nil => (.nil, [HostMut.patch])
  | .node k1 a1 c1 s1, .node k2 a2 c2 s2 =>
    if VTree.node k1 a1 c1 s1 = VTree.node k2 a2 c2 s2 then
      (VTree.node k1 a1 c1 s1, [])
    else if k1 = k2 then
      (VTree.node k2 a2 (morph c1 c2).1 (morph s1 s2).1,
        (if a1 = a2 then [] else [HostMut.patch]) ++ (morph c1 c2).2 ++ (morph s1 s2).2)
    else
      (VTree.node k2 a2 c2 (morph s1 s2).1, HostMut.patch :: (morph s1 s2).2)

/-- An emitter list as declared in an `EmitRecord`: the source's
`emit: EventEmitter<State> | EventEmitter<State>[]` union. -/
inductive EmitSpec (σ ε : Type) where
  | single (e : σ → ε)
  | many (es : List (σ → ε))

/-- The emitters of an `EmitSpec`, in declaration order. -/
def emitters : EmitSpec σ ε → List (σ → ε)
  | .single e => [e]
  | .many es => es

/-- An emission record (`EmitRecord` in `src/sources/core.ts`): a predicate
on the (old, new) state pair and one emitter or an ordered emitter list. -/
structure EmitRecord (σ ε : Type) where
  when : σ → σ → Bool
  emit : EmitSpec σ ε

/-- The emission pass `_maybeEmitEvents` of `src/sources/core.ts` lines
218-233: iterate the records in order; for a record whose predicate holds of
`(oldS, newS)`, dispatch its emitter (or each emitter of its list, in list
order) applied to the current — post-commit — state `newS`.  The returned
list is the sequence of dispatched events. -/
def maybeEmitEvents (records : List (EmitRecord σ ε)) (oldS newS : σ) : List ε :=
  records.foldl
    (fun acc r =>
      if r.when oldS newS then
        match r.emit with
        | .single e => acc ++ [e newS]
        | .many es => acc ++ es.map (fun e => e newS)
      else acc)
    []

/-- The static configuration of a component instance: the constructor
arguments of `_Component` that the state-transition runtime reads
(`render`, `emit`, `viewupdated`).  `emit := []` models an absent
`args.emit`. -/
structure Config (σ ε : Type) where
  render : σ → VTree
  emit : List (EmitRecord σ ε)
  viewupdated : Option (σ → VTree → σ)

/-- The mutable state of a component instance, instrumented so that the
observable side effects are recorded:
`state` is `this._state`, `root` is `this._root`, `deferredRedraw` is
`this._deferredRedraw`, `taskQueue` counts the deferred redraw tasks
currently sitting in the host task queue, `dispatched` is the sequence of
events dispatched so far, `emitEvals` records one `(old, new)` pair for each
evaluation of the emission pass, `redrawLog` records the state rendered by
each execution of `_redraw`, and `mutLog` records every mutation of the
mounted host tree. -/
structure Comp (σ ε : Type) where
  state : σ
  root : VTree
  deferredRedraw : Bool
  taskQueue : Nat
  dispatched : List ε
  emitEvals : List (σ × σ)
  redrawLog : List σ
  mutLog : List HostMut

variable {σ ε : Type}

/-- The commit operation `_changeState` of `src/sources/core.ts` lines
235-252: if the new state is reference-identical to the current one, return
at once; otherwise store the new state, schedule one deferred redraw when
none is pending (setting the pending flag), and run the emission pass
against the (old, new) pair. -/
def changeState [DecidableEq σ] (cfg : Config σ ε) (c : Comp σ ε) (newState : σ) : Comp σ ε :=
  if c.state = newState then c
  else if c.deferredRedraw then
    { c with
        state := newState,
        dispatched := c.dispatched ++ maybeEmitEvents cfg.emit c.state newState,
        emitEvals := c.emitEvals ++ [(c.state, newState)] }
  else
    { c with
        state := newState,
        taskQueue := c.taskQueue + 1,
        deferredRedraw := true,
        dispatched := c.dispatched ++ maybeEmitEvents cfg.emit c.state newState,
        emitEvals := c.emitEvals ++ [(c.state, newState)] }

/-- The `viewupdated` feedback at the end of `_redraw`: when the hook is
configured, commit `viewupdated(state, root)` through `_changeState`. -/
def maybeViewupdated [DecidableEq σ] (cfg : Config σ ε) (c : Comp σ ε) : Comp σ ε :=
  match cfg.viewupdated with
  | some f => changeState cfg c (f c.state c.root)
  | none => c

/-- The reconciliation pass `_redraw` of `src/sources/core.ts` lines
198-216: render the candidate from the current state; if it is structurally
equal to the mounted root, return without touching the host tree; if the
node kinds differ, detach the mounted root and swap in the candidate whole;
otherwise merge the candidate into the mounted tree in place; finally run
the `viewupdated` hook.  Each execution appends the state it rendered to
`redrawLog`. -/
def redraw [DecidableEq σ] (cfg : Config σ ε) (c : Comp σ ε) : Comp σ ε :=
  if c.root = cfg.render c.state then
    { c with redrawLog := c.redrawLog ++ [c.state] }
  else if c.root.nodeName ≠ (cfg.render c.state).nodeName then
    maybeViewupdated cfg
      { c with
          root := cfg.render c.state,
          mutLog := c.mutLog ++ [HostMut.replace c.root (cfg.render c.state)],
          redrawLog := c.redrawLog ++ [c.state] }
  else
    maybeViewupdated cfg
      { c with
          root := (morph c.root (cfg.render c.state)).1,
          mutLog := c.mutLog ++ (morph c.root (cfg.render c.state)).2,
          redrawLog := c.redrawLog ++ [c.state] }

/-- The reconciliation pass `_redraw` of the latest revision in
`src/index.ts` lines 544-566: return untouched when not connected; render
the candidate; skip when it is structurally equal to the mounted root;
swap the mounted root for the candidate whole when
`this._redrawMode === "replace" || this._root.nodeName !== rendered.nodeName`;
otherwise merge in place; finally run the `viewupdated` hook.  `mode` is the
instance's `_redrawMode` option string (`"replace" | "update"`, default
`"update"`) and `connected` its `_connected` flag. -/
def redrawV2 [DecidableEq σ] (mode : String) (connected : Bool) (cfg : Config σ ε)
    (c : Comp σ ε) : Comp σ ε :=
  if !connected then c
  else if c.root = cfg.render c.state then
    { c with redrawLog := c.redrawLog ++ [c.state] }
  else if mode = "replace" ∨ c.root.nodeName ≠ (cfg.render c.state).nodeName then
    maybeViewupdated cfg
      { c with
          root := cfg.render c.state,
          mutLog := c.mutLog ++ [HostMut.replace c.root (cfg.render c.state)],
          redrawLog := c.redrawLog ++ [c.state] }
  else
    maybeViewupdated cfg
      { c with
          root := (morph c.root (cfg.render c.state)).1,
          mutLog := c.mutLog ++ (morph c.root (cfg.render c.state)).2,
          redrawLog := c.redrawLog ++ [c.state] }

/-- The deferred task enqueued by `_changeState`
(`setTimeout( () => { this._redraw(); this._deferredRedraw = false; }, 0 )`):
it runs `_redraw` first, and only afterwards clears the pending flag; running
it consumes the task from the queue. -/
def runDeferredTask [DecidableEq σ] (cfg : Config σ ε) (c : Comp σ ε) : Comp σ ε :=
  { redraw cfg c with
      deferredRedraw := false,
      taskQueue := (redraw cfg c).taskQueue - 1 }

/-- The `eventHandler` closure of `_bindEvents`: look up the handler for the
arriving event and commit `handler(state, event)` (the event argument is
already applied in `handler`). -/
def handleEvent [DecidableEq σ] (cfg : Config σ ε) (handler : σ → σ) (c : Comp σ ε) : Comp σ ε :=
  changeState cfg c (handler c.state)

/-- Invariant (d) of the spec's data model: the pending-task count matches
the pending flag, so at most one redraw is pending at any time. -/
def pendingInv (c : Comp σ ε) : Prop :=
  c.taskQueue = if c.deferredRedraw then 1 else 0

/-- The reserved process-wide event-name set (`GLOBAL_EVENTS` in
`src/sources/core.ts` line 37). -/
def GLOBAL_EVENTS : List String := ["hashchange", "popstate"]

/-- `localEvents` of `src/sources/core.ts` lines 39-44: keep, in declaration
order, every handler whose event name is not in the reserved set.  The
handler table is an association list in key order, mirroring
`Object.keys(events).reduce`. -/
def localEvents {H : Type} (events : List (String × H)) : List (String × H) :=
  events.foldl
    (fun result p => if GLOBAL_EVENTS.contains p.1 then result else result ++ [p]) []

/-- `globalEvents` of `src/sources/core.ts` lines 46-51: keep every handler
whose event name is in the reserved set. -/
def globalEvents {H : Type} (events : List (String × H)) : List (String × H) :=
  events.foldl
    (fun result p => if !GLOBAL_EVENTS.contains p.1 then result else result ++ [p]) []

/-- An event record of the latest revision in `src/index.ts` (lines
296-299): either a bare handler function, or a handler together with an
explicit channel string (`"global" | "local"`). -/
inductive EventRecord (H : Type) where
  | handler (h : H)
  | withChannel (h : H) (channel : String)

/-- `localEvents` of the latest revision in `src/index.ts` lines 338-346:
a bare handler function is local; a record with explicit channel `"local"`
is local; every other record is not. -/
def localEventsV2 {H : Type} (events : List (String × EventRecord H)) : List (String × H) :=
  events.foldl
    (fun result p =>
      match p.2 with
      | .handler h => result ++ [(p.1, h)]
      | .withChannel h ch => if ch = "local" then result ++ [(p.1, h)] else result)
    []

/-- `globalEvents` of the latest revision in `src/index.ts` lines 348-354:
only a record with explicit channel `"global"` is global. -/
def globalEventsV2 {H : Type} (events : List (String × EventRecord H)) : List (String × H) :=
  events.foldl
    (fun result p =>
      match p.2 with
      | .handler _ => result
      | .withChannel h ch => if ch = "global" then result ++ [(p.1, h)] else result)
    []

/-- The routing decision of `localEventsV2` per record, as a partial map. -/
def localRoute {H : Type} (p : String × EventRecord H) : Option (String × H) :=
  match p.2 with
  | .handler h => some (p.1, h)
  | .withChannel h ch => if ch = "local" then some (p.1, h) else none

/-- The routing decision of `globalEventsV2` per record, as a partial map. -/
def globalRoute {H : Type} (p : String × EventRecord H) : Option (String × H) :=
  match p.2 with
  | .handler _ => none
  | .withChannel h ch => if ch = "global" then some (p.1, h) else none

/-- The events contributed by one emission record for a given (old, new)
pair: all its emitters applied to the new state when the predicate holds,
nothing otherwise. -/
def recordEvents (r : EmitRecord σ ε) (oldS newS : σ) : List ε :=
  if r.when oldS newS then (emitters r.emit).map (fun e => e newS) else []

/-- A declared projection (`Prop<State, T>` in `src/sources/core.ts`): an
optional read function and an optional write path made of a setter and a
type-guard predicate. -/
structure PropSpec (σ τ : Type) where
  get? : Option (σ → τ)
  set? : Option ((σ → τ → σ) × (τ → Bool))

/-- `has_getter` of `src/sources/core.ts` lines 17-18. -/
def has_getter {τ : Type} (prop : PropSpec σ τ) : Bool :=
  prop.get?.isSome

/-- The property descriptor installed on the instance by
`Object.defineProperty`: an optional read accessor and an optional write
accessor. -/
structure Accessor (σ τ : Type) where
  get? : Option (σ → τ)
  set? : Option (σ → τ → σ)

/-- The body of the `_defineProps` loop of `src/sources/core.ts` lines
107-123 for one declared projection: the descriptor starts empty; when the
projection has a getter, a read accessor computing `get` on the live state
is installed.  No branch of the source ever installs a write accessor. -/
def defineProp {τ : Type} (prop : PropSpec σ τ) : Accessor σ τ :=
  if has_getter prop then { get? := prop.get?, set? := none }
  else { get? := none, set? := none }

/-- `_defineProps` of `src/sources/core.ts` lines 107-123: install one
descriptor per declared projection, keyed by its name. -/
def defineProps {τ : Type} (props : List (String × PropSpec σ τ)) :
    List (String × Accessor σ τ) :=
  props.map (fun p => (p.1, defineProp p.2))

/-- The `ValidityStateFlags` record handed to the host: each of the ten
flags is optional (`none` models an absent field). -/
structure VFlags where
  valueMissing : Option Bool := none
  stepMismatch : Option Bool := none
  badInput : Option Bool := none
  customError : Option Bool := none
  patternMismatch : Option Bool := none
  rangeOverflow : Option Bool := none
  rangeUnderflow : Option Bool := none
  tooLong : Option Bool := none
  tooShort : Option Bool := none
  typeMismatch : Option Bool := none
deriving DecidableEq, Repr

/-- The host's current `ValidityState` as observable via
`this._internals.validity`: ten definite flags. -/
structure Validity where
  valueMissing : Bool := false
  stepMismatch : Bool := false
  badInput : Bool := false
  customError : Bool := false
  patternMismatch : Bool := false
  rangeOverflow : Bool := false
  rangeUnderflow : Bool := false
  tooLong : Bool := false
  tooShort : Bool := false
  typeMismatch : Bool := false
deriving DecidableEq, Repr

/-- `_validityDiffers` of `src/sources/core.ts` lines 284-296: compare each
of the ten flags of the candidate record against the host's current value,
treating a missing flag as `false` (`?? false`). -/
def validityDiffers (validity : Validity) (flags : VFlags) : Bool :=
  validity.valueMissing != flags.valueMissing.getD false ||
  validity.stepMismatch != flags.stepMismatch.getD false ||
  validity.badInput != flags.badInput.getD false ||
  validity.customError != flags.customError.getD false ||
  validity.patternMismatch != flags.patternMismatch.getD false ||
  validity.rangeOverflow != flags.rangeOverflow.getD false ||
  validity.rangeUnderflow != flags.rangeUnderflow.getD false ||
  validity.tooLong != flags.tooLong.getD false ||
  validity.tooShort != flags.tooShort.getD false ||
  validity.typeMismatch != flags.typeMismatch.getD false

/-- The host form facility's reaction to `setValidity(flags, ...)`: the
stored validity takes each given flag, a missing flag becoming `false`. -/
def applyFlags (flags : VFlags) : Validity :=
  { valueMissing := flags.valueMissing.getD false,
    stepMismatch := flags.stepMismatch.getD false,
    badInput := flags.badInput.getD false,
    customError := flags.customError.getD false,
    patternMismatch := flags.patternMismatch.getD false,
    rangeOverflow := flags.rangeOverflow.getD false,
    rangeUnderflow := flags.rangeUnderflow.getD false,
    tooLong := flags.tooLong.getD false,
    tooShort := flags.tooShort.getD false,
    typeMismatch := flags.typeMismatch.getD false }

/-- The configuration of the form-capable specialization `_FormComponent`:
the base configuration plus `formValue` and the optional `validate`. -/
structure FormConfig (σ ε : Type) extends Config σ ε where
  formValue : σ → String
  validate : Option (σ → VFlags × String)

/-- The instrumented state of a form-capable instance: the base component
state plus the host internals mirror (`validity`, `validityMessage`), the
log of `setFormValue` pushes, the count of `setValidity` pushes, and the
count of `validate` invocations. -/
structure FormComp (σ ε : Type) extends Comp σ ε where
  validity : Validity
  validityMessage : String
  formValuePushes : List String
  validityPushes : Nat
  validateRuns : Nat

/-- `_maybeValidate` of `src/sources/core.ts` lines 298-305: when a
`validate` function is configured, run it on the current state and push the
resulting flags and message to the host via `setValidity` only if at least
one of the ten flags differs from the host's current validity. -/
def maybeValidate (fcfg : FormConfig σ ε) (fc : FormComp σ ε) : FormComp σ ε :=
  match fcfg.validate with
  | none => fc
  | some v =>
    if validityDiffers fc.validity (v fc.state).1 then
      { fc with
          validity := applyFlags (v fc.state).1,
          validityMessage := (v fc.state).2,
          validityPushes := fc.validityPushes + 1,
          validateRuns := fc.validateRuns + 1 }
    else { fc with validateRuns := fc.validateRuns + 1 }

/-- `_changeState` of `_FormComponent` (`src/sources/core.ts` lines
307-311): run the base commit, then unconditionally push
`formValue(this._state)` to the host via `setFormValue`, then run the
validation step. -/
def formChangeState [DecidableEq σ] (fcfg : FormConfig σ ε) (fc : FormComp σ ε) (s : σ) :
    FormComp σ ε :=
  maybeValidate fcfg
    { fc with
        toComp := changeState fcfg.toConfig fc.toComp s,
        formValuePushes :=
          fc.formValuePushes ++ [fcfg.formValue (changeState fcfg.toConfig fc.toComp s).state] }

/-- A span element, the tag `_Component`'s constructor uses for the
placeholder root. -/
def spanNode : VTree := VTree.node "span" [] .nil .nil

/-- A div element. -/
def divNode : VTree := VTree.node "div" [] .nil .nil

/-- A minimal configuration: constant span render, no emission records, no
`viewupdated` hook. -/
def cfgW : Config Nat Nat :=
  { render := fun _ => spanNode, emit := [], viewupdated := none }

/-- A configuration whose render produces a div (a different node kind than
the span root of `compW`). -/
def cfgDiv : Config Nat Nat :=
  { render := fun _ => divNode, emit := [], viewupdated := none }

/-- A freshly-mounted quiescent component: state 0, span root, no pending
redraw, empty logs. -/
def compW : Comp Nat Nat :=
  { state := 0, root := spanNode, deferredRedraw := false, taskQueue := 0,
    dispatched := [], emitEvals := [], redrawLog := [], mutLog := [] }

/-- A quiescent component whose root is a div carrying an attribute, so a
same-kind redraw against `cfgDiv` exercises the in-place merge. -/
def compW6b : Comp Nat Nat :=
  { state := 0, root := VTree.node "div" [("class", "a")] .nil .nil,
    deferredRedraw := false, taskQueue := 0,
    dispatched := [], emitEvals := [], redrawLog := [], mutLog := [] }

/-- A configuration with a `viewupdated` hook that commits `state + 1` from
inside the redraw path. -/
def cfgC3 : Config Nat Nat :=
  { render := fun _ => divNode, emit := [],
    viewupdated := some (fun s _ => s + 1) }

/-- The end-to-end configuration of the spec's scenario: one emission
record firing once the new state reaches 3, emitting an event named
reachedThree that carries the state. -/
def cfgC7 : Config Nat (String × Nat) :=
  { render := fun _ => spanNode,
    emit := [{ when := fun _ n => decide (3 ≤ n),
               emit := .single (fun n => ("reachedThree", n)) }],
    viewupdated := none }

/-- The initial component of the scenario: `initialState = 0`. -/
def compC7 : Comp Nat (String × Nat) :=
  { state := 0, root := spanNode, deferredRedraw := false, taskQueue := 0,
    dispatched := [], emitEvals := [], redrawLog := [], mutLog := [] }

/-- A form configuration whose `validate` always reports
`{valueMissing: true}`. -/
def fcfgC8 : FormConfig Nat Nat :=
  { render := fun _ => spanNode, emit := [], viewupdated := none,
    formValue := fun s => toString s,
    validate := some (fun _ => ({ valueMissing := some true }, "value required")) }

/-- A quiescent form component whose host validity is all-false. -/
def formC8 : FormComp Nat Nat :=
  { state := 0, root := spanNode, deferredRedraw := false, taskQueue := 0,
    dispatched := [], emitEvals := [], redrawLog := [], mutLog := [],
    validity := {}, validityMessage := "",
    formValuePushes := [], validityPushes := 0, validateRuns := 0 }

/-- A declared projection with only a write path (a setter and its guard)
and no getter. -/
def setOnlyProp : PropSpec Nat Nat :=
  { get? := none, set? := some (fun _ v => v, fun _ => true) }

/-- A declared projection with only a read path. -/
def getOnlyProp : PropSpec Nat Nat :=
  { get? := some (fun s => s), set? := none }

/-- A one-entry projection table. -/
def propsW9 : List (String × PropSpec Nat Nat) := [("value", getOnlyProp)]

/-- The merge mutates the mounted tree until it matches the candidate. -/
theorem morph_fst (f : VTree) : ∀ t : VTree, (morph f t).1 = t := by
  induction f with
  | nil =>
    intro t
    cases t with
    | nil => rfl
    | node k a c s => rfl
  | node k a c s ihc ihs =>
    intro t
    cases t with
    | nil => rfl
    | node k2 a2 c2 s2 =>
      rw [morph]
      split
      · next heq => exact heq
      · split
        · simp [ihc, ihs]
        · simp [ihs]

/-- Every mutation the merge performs is an in-place patch, never a
whole-root replacement. -/
theorem morph_muts (f : VTree) : ∀ t : VTree, ∀ m ∈ (morph f t).2, m = HostMut.patch := by
  induction f with
  | nil =>
    intro t m hm
    cases t with
    | nil => simp [morph] at hm
    | node k a c s =>
      simp [morph] at hm
      exact hm
  | node k a c s ihc ihs =>
    intro t m hm
    cases t with
    | nil =>
      simp [morph] at hm
      exact hm
    | node k2 a2 c2 s2 =>
      rw [morph] at hm
      split at hm
      · simp at hm
      · split at hm
        · simp at hm
          rcases hm with hm | hm | hm
          · rcases hm with ⟨-, hm⟩
            exact hm
          · exact ihc c2 m hm
          · exact ihs s2 m hm
        · simp at hm
          rcases hm with hm | hm
          · exact hm
          · exact ihs s2 m hm

/-- An already-equal pair of subtrees is skipped outright: no mutations. -/
theorem morph_self (t : VTree) : morph t t = (t, []) := by
  cases t with
  | nil => rfl
  | node k a c s => simp [morph]

theorem changeState_self [DecidableEq σ] (cfg : Config σ ε) (c : Comp σ ε) (s : σ)
    (h : c.state = s) : changeState cfg c s = c := by
  unfold changeState
  rw [if_pos h]

theorem changeState_state [DecidableEq σ] (cfg : Config σ ε) (c : Comp σ ε) (s : σ) :
    (changeState cfg c s).state = s := by
  unfold changeState
  split
  · next h => exact h
  · split <;> rfl

theorem changeState_root [DecidableEq σ] (cfg : Config σ ε) (c : Comp σ ε) (s : σ) :
    (changeState cfg c s).root = c.root := by
  unfold changeState
  split
  · rfl
  · split <;> rfl

theorem changeState_mutLog [DecidableEq σ] (cfg : Config σ ε) (c : Comp σ ε) (s : σ) :
    (changeState cfg c s).mutLog = c.mutLog := by
  unfold changeState
  split
  · rfl
  · split <;> rfl

theorem changeState_redrawLog [DecidableEq σ] (cfg : Config σ ε) (c : Comp σ ε) (s : σ) :
    (changeState cfg c s).redrawLog = c.redrawLog := by
  unfold changeState
  split
  · rfl
  · split <;> rfl

theorem changeState_deferredRedraw_of_ne [DecidableEq σ] (cfg : Config σ ε) (c : Comp σ ε)
    (s : σ) (h : c.state ≠ s) : (changeState cfg c s).deferredRedraw = true := by
  unfold changeState
  rw [if_neg h]
  split
  · next hd => exact hd
  · rfl

theorem changeState_taskQueue_of_ne [DecidableEq σ] (cfg : Config σ ε) (c : Comp σ ε)
    (s : σ) (h : c.state ≠ s) :
    (changeState cfg c s).taskQueue = if c.deferredRedraw then c.taskQueue else c.taskQueue + 1 := by
  unfold changeState
  rw [if_neg h]
  split <;> rfl

theorem changeState_taskQueue_of_pending [DecidableEq σ] (cfg : Config σ ε) (c : Comp σ ε)
    (s : σ) (hd : c.deferredRedraw = true) : (changeState cfg c s).taskQueue = c.taskQueue := by
  unfold changeState
  split
  · rfl
  · simp [hd]

theorem changeState_taskQueue_le [DecidableEq σ] (cfg : Config σ ε) (c : Comp σ ε) (s : σ) :
    (changeState cfg c s).taskQueue ≤ c.taskQueue + 1 := by
  unfold changeState
  split
  · exact Nat.le_succ _
  · split
    · exact Nat.le_succ _
    · exact Nat.le_refl _

theorem changeState_emitEvals_of_ne [DecidableEq σ] (cfg : Config σ ε) (c : Comp σ ε)
    (s : σ) (h : c.state ≠ s) :
    (changeState cfg c s).emitEvals = c.emitEvals ++ [(c.state, s)] := by
  unfold changeState
  rw [if_neg h]
  split <;> rfl

theorem changeState_dispatched_of_ne [DecidableEq σ] (cfg : Config σ ε) (c : Comp σ ε)
    (s : σ) (h : c.state ≠ s) :
    (changeState cfg c s).dispatched = c.dispatched ++ maybeEmitEvents cfg.emit c.state s := by
  unfold changeState
  rw [if_neg h]
  split <;> rfl

theorem changeState_pendingInv [DecidableEq σ] (cfg : Config σ ε) (c : Comp σ ε) (s : σ)
    (h : pendingInv c) : pendingInv (changeState cfg c s) := by
  unfold pendingInv at *
  unfold changeState
  split
  · exact h
  · split
    · next hd => simpa [hd] using h
    · next hd =>
      simp only [Bool.not_eq_true] at hd
      simpa [hd] using h

theorem maybeViewupdated_redrawLog [DecidableEq σ] (cfg : Config σ ε) (c : Comp σ ε) :
    (maybeViewupdated cfg c).redrawLog = c.redrawLog := by
  unfold maybeViewupdated
  cases cfg.viewupdated with
  | none => rfl
  | some f => exact changeState_redrawLog cfg c (f c.state c.root)

theorem maybeViewupdated_taskQueue_of_pending [DecidableEq σ] (cfg : Config σ ε)
    (c : Comp σ ε) (hd : c.deferredRedraw = true) :
    (maybeViewupdated cfg c).taskQueue = c.taskQueue := by
  unfold maybeViewupdated
  cases cfg.viewupdated with
  | none => rfl
  | some f => exact changeState_taskQueue_of_pending cfg c (f c.state c.root) hd

theorem redraw_redrawLog [DecidableEq σ] (cfg : Config σ ε) (c : Comp σ ε) :
    (redraw cfg c).redrawLog = c.redrawLog ++ [c.state] := by
  unfold redraw
  split
  · rfl
  · split <;> rw [maybeViewupdated_redrawLog]

theorem redraw_taskQueue_of_pending [DecidableEq σ] (cfg : Config σ ε) (c : Comp σ ε)
    (hd : c.deferredRedraw = true) : (redraw cfg c).taskQueue = c.taskQueue := by
  unfold redraw
  split
  · rfl
  · split <;> exact maybeViewupdated_taskQueue_of_pending cfg _ hd

theorem localEvents_go {H : Type} (l : List (String × H)) :
    ∀ acc : List (String × H),
      l.foldl (fun result p => if GLOBAL_EVENTS.contains p.1 then result else result ++ [p]) acc
        = acc ++ l.filter (fun p => !GLOBAL_EVENTS.contains p.1) := by
  induction l with
  | nil => intro acc; simp
  | cons head tail ih =>
    intro acc
    rw [List.foldl_cons, ih, List.filter_cons]
    cases hq : GLOBAL_EVENTS.contains head.1 with
    | true => simp
    | false => simp

theorem globalEvents_go {H : Type} (l : List (String × H)) :
    ∀ acc : List (String × H),
      l.foldl (fun result p => if !GLOBAL_EVENTS.contains p.1 then result else result ++ [p]) acc
        = acc ++ l.filter (fun p => GLOBAL_EVENTS.contains p.1) := by
  induction l with
  | nil => intro acc; simp
  | cons head tail ih =>
    intro acc
    rw [List.foldl_cons, ih, List.filter_cons]
    cases hq : GLOBAL_EVENTS.contains head.1 with
    | true => simp
    | false => simp

theorem localEventsV2_go {H : Type} (l : List (String × EventRecord H)) :
    ∀ acc : List (String × H),
      l.foldl
        (fun result p =>
          match p.2 with
          | .handler h => result ++ [(p.1, h)]
          | .withChannel h ch => if ch = "local" then result ++ [(p.1, h)] else result)
        acc
      = acc ++ l.filterMap localRoute := by
  induction l with
  | nil => intro acc; simp
  | cons head tail ih =>
    intro acc
    rcases head with ⟨n, r⟩
    cases r with
    | handler h => simp [List.filterMap_cons, localRoute, ih]
    | withChannel h ch =>
      by_cases hc : ch = "local" <;>
        simp [List.filterMap_cons, localRoute, hc, ih]

theorem globalEventsV2_go {H : Type} (l : List (String × EventRecord H)) :
    ∀ acc : List (String × H),
      l.foldl
        (fun result p =>
          match p.2 with
          | .handler _ => result
          | .withChannel h ch => if ch = "global" then result ++ [(p.1, h)] else result)
        acc
      = acc ++ l.filterMap globalRoute := by
  induction l with
  | nil => intro acc; simp
  | cons head tail ih =>
    intro acc
    rcases head with ⟨n, r⟩
    cases r with
    | handler h => simp [List.filterMap_cons, globalRoute, ih]
    | withChannel h ch =>
      by_cases hc : ch = "global" <;>
        simp [List.filterMap_cons, globalRoute, hc, ih]

theorem maybeEmitEvents_go (oldS newS : σ) (records : List (EmitRecord σ ε)) :
    ∀ acc : List ε,
      records.foldl
        (fun acc r =>
          if r.when oldS newS then
            match r.emit with
            | .single e => acc ++ [e newS]
            | .many es => acc ++ es.map (fun e => e newS)
          else acc)
        acc
      = acc ++ records.flatMap (fun r => recordEvents r oldS newS) := by
  induction records with
  | nil => intro acc; simp
  | cons r rest ih =>
    intro acc
    rw [List.foldl_cons, ih]
    cases hw : r.when oldS newS with
    | true => cases he : r.emit <;> simp [recordEvents, emitters, hw, he]
    | false => simp [recordEvents, hw]

theorem maybeEmitEvents_eq_bind (records : List (EmitRecord σ ε)) (oldS newS : σ) :
    maybeEmitEvents records oldS newS
      = records.flatMap (fun r => recordEvents r oldS newS) := by
  unfold maybeEmitEvents
  rw [maybeEmitEvents_go]
  simp

theorem maybeViewupdated_root [DecidableEq σ] (cfg : Config σ ε) (c : Comp σ ε) :
    (maybeViewupdated cfg c).root = c.root := by
  unfold maybeViewupdated
  cases cfg.viewupdated with
  | none => rfl
  | some f => exact changeState_root cfg c (f c.state c.root)

theorem maybeViewupdated_mutLog [DecidableEq σ] (cfg : Config σ ε) (c : Comp σ ε) :
    (maybeViewupdated cfg c).mutLog = c.mutLog := by
  unfold maybeViewupdated
  cases cfg.viewupdated with
  | none => rfl
  | some f => exact changeState_mutLog cfg c (f c.state c.root)

theorem maybeValidate_toComp (fcfg : FormConfig σ ε) (fc : FormComp σ ε) :
    (maybeValidate fcfg fc).toComp = fc.toComp := by
  unfold maybeValidate
  split
  · rfl
  · split <;> rfl

theorem maybeValidate_formValuePushes (fcfg : FormConfig σ ε) (fc : FormComp σ ε) :
    (maybeValidate fcfg fc).formValuePushes = fc.formValuePushes := by
  unfold maybeValidate
  split
  · rfl
  · split <;> rfl

theorem maybeValidate_validateRuns (fcfg : FormConfig σ ε) (fc : FormComp σ ε) :
    (maybeValidate fcfg fc).validateRuns
      = fc.validateRuns + (if fcfg.validate.isSome then 1 else 0) := by
  unfold maybeValidate
  split
  · next heq => simp [heq]
  · next v heq => split <;> simp [heq]

/-- Claim C1: a commit whose argument is reference-identical to the current
state returns immediately with no side effects (no redraw scheduled, no
emission evaluated, stored state unchanged); consequently `commit(s)`
followed immediately by `commit(s)` with the same reference performs at most
one redraw and evaluates the emission pass exactly once — the second call is
a full no-op. -/
theorem claim_C1 [DecidableEq σ] (cfg : Config σ ε) (c : Comp σ ε) (s : σ) :
    (c.state = s → changeState cfg c s = c) ∧
    changeState cfg (changeState cfg c s) s = changeState cfg c s ∧
    (c.state ≠ s →
      (changeState cfg c s).emitEvals = c.emitEvals ++ [(c.state, s)] ∧
      (changeState cfg c s).taskQueue ≤ c.taskQueue + 1) :=
  ⟨fun h => changeState_self cfg c s h,
   changeState_self cfg _ s (changeState_state cfg c s),
   fun h => ⟨changeState_emitEvals_of_ne cfg c s h, changeState_taskQueue_le cfg c s⟩⟩

theorem claim_C1_witness :
    changeState cfgW compW 0 = compW ∧
    changeState cfgW (changeState cfgW compW 1) 1 = changeState cfgW compW 1 ∧
    (changeState cfgW compW 1).emitEvals = compW.emitEvals ++ [(compW.state, 1)] ∧
    (changeState cfgW compW 1).taskQueue ≤ compW.taskQueue + 1 :=
  ⟨(claim_C1 cfgW compW 0).1 rfl,
   (claim_C1 cfgW compW 1).2.1,
   ((claim_C1 cfgW compW 1).2.2 (by decide)).1,
   ((claim_C1 cfgW compW 1).2.2 (by decide)).2⟩

/-- Claim C3: the claim (and the spec) say the deferred task clears the
pending-redraw flag before invoking the Reconciler, so a commit issued from
inside the redraw path (here by the `viewupdated` hook) schedules a fresh
deferred pass.  The code does the opposite — the task body is
`this._redraw(); this._deferredRedraw = false;` — so the hook's commit finds
the flag still set, schedules nothing, and its state is never rendered:
after the single task runs, the state is 2 but only state 1 was ever
rendered, and no redraw is pending. -/
theorem claim_C3 :
    (changeState cfgC3 compW 1).deferredRedraw = true ∧
    (changeState cfgC3 compW 1).taskQueue = 1 ∧
    (runDeferredTask cfgC3 (changeState cfgC3 compW 1)).state = 2 ∧
    (runDeferredTask cfgC3 (changeState cfgC3 compW 1)).redrawLog = [1] ∧
    (runDeferredTask cfgC3 (changeState cfgC3 compW 1)).emitEvals = [(0, 1), (1, 2)] ∧
    (runDeferredTask cfgC3 (changeState cfgC3 compW 1)).deferredRedraw = false ∧
    (runDeferredTask cfgC3 (changeState cfgC3 compW 1)).taskQueue = 0 := by
  decide

/-- Claim C4 counterexample: `hashchange` is in the reserved process-wide
name set, yet in the channel-capable revision a `hashchange` handler with no
explicit channel is routed to the local channel and not to the global one,
contradicting "local unless its event name belongs to the reserved
process-wide name set". -/
theorem claim_C4_cex :
    GLOBAL_EVENTS.contains "hashchange" = true ∧
    localEventsV2 [("hashchange", EventRecord.handler (0 : Nat))] = [("hashchange", 0)] ∧
    globalEventsV2 [("hashchange", EventRecord.handler (0 : Nat))] = [] := by
  refine ⟨by decide, rfl, rfl⟩

/-- Claim C4 (amended): in the name-based revision (`src/sources/core.ts`),
where handlers carry no channel, the tables are partitioned by the reserved
name set — a handler is global exactly when its event name is reserved,
local otherwise.  In the channel-capable revision (`src/index.ts`), a
handler carrying an explicit channel is routed to that channel regardless of
its name, and a handler with no explicit channel is always local — the
reserved name set plays no role there. -/
theorem claim_C4 {H : Type} (events : List (String × H))
    (records : List (String × EventRecord H)) :
    localEvents events = events.filter (fun p => !GLOBAL_EVENTS.contains p.1) ∧
    globalEvents events = events.filter (fun p => GLOBAL_EVENTS.contains p.1) ∧
    localEventsV2 records = records.filterMap localRoute ∧
    globalEventsV2 records = records.filterMap globalRoute := by
  refine ⟨?_, ?_, ?_, ?_⟩
  · unfold localEvents
    rw [localEvents_go]
    simp
  · unfold globalEvents
    rw [globalEvents_go]
    simp
  · unfold localEventsV2
    rw [localEventsV2_go]
    simp
  · unfold globalEventsV2
    rw [globalEventsV2_go]
    simp

/-- Claim C5: when the rendered candidate is structurally equal to the
currently mounted tree, executing the redraw performs zero mutations of the
mounted host tree — the only trace of the run is the redraw-log entry. -/
theorem claim_C5 [DecidableEq σ] (cfg : Config σ ε) (c : Comp σ ε)
    (h : cfg.render c.state = c.root) :
    (redraw cfg c).mutLog = c.mutLog ∧
    (redraw cfg c).root = c.root ∧
    redraw cfg c = { c with redrawLog := c.redrawLog ++ [c.state] } := by
  unfold redraw
  rw [if_pos h.symm]
  exact ⟨rfl, rfl, rfl⟩

theorem claim_C5_witness :
    cfgW.render compW.state = compW.root ∧
    (redraw cfgW compW).mutLog = compW.mutLog ∧
    (redraw cfgW compW).root = compW.root ∧
    redraw cfgW compW = { compW with redrawLog := compW.redrawLog ++ [compW.state] } :=
  ⟨rfl, (claim_C5 cfgW compW rfl).1, (claim_C5 cfgW compW rfl).2.1,
   (claim_C5 cfgW compW rfl).2.2⟩

/-- Claim C2: within one task-queue turn, the first state-changing commit
sets the pending flag and enqueues one deferred task; every subsequent
commit in the same turn schedules nothing further; at most one redraw is
pending at any time; emission is evaluated once per state-changing commit
against that commit's own (previous, next) pair; and the single deferred
task runs exactly one redraw, rendering the final committed state. -/
theorem claim_C2 [DecidableEq σ] (cfg : Config σ ε) (c0 : Comp σ ε) (s1 s2 s3 : σ)
    (hb : c0.deferredRedraw = false) (hq : c0.taskQueue = 0)
    (h1 : c0.state ≠ s1) (h2 : s1 ≠ s2) (h3 : s2 ≠ s3) :
    (changeState cfg c0 s1).taskQueue = 1 ∧
    (changeState cfg c0 s1).deferredRedraw = true ∧
    (changeState cfg (changeState cfg c0 s1) s2).taskQueue = 1 ∧
    (changeState cfg (changeState cfg (changeState cfg c0 s1) s2) s3).taskQueue = 1 ∧
    (changeState cfg (changeState cfg (changeState cfg c0 s1) s2) s3).state = s3 ∧
    (changeState cfg (changeState cfg (changeState cfg c0 s1) s2) s3).emitEvals
      = c0.emitEvals ++ [(c0.state, s1), (s1, s2), (s2, s3)] ∧
    (runDeferredTask cfg
        (changeState cfg (changeState cfg (changeState cfg c0 s1) s2) s3)).redrawLog
      = c0.redrawLog ++ [s3] ∧
    (runDeferredTask cfg
        (changeState cfg (changeState cfg (changeState cfg c0 s1) s2) s3)).taskQueue = 0 ∧
    (runDeferredTask cfg
        (changeState cfg (changeState cfg (changeState cfg c0 s1) s2) s3)).deferredRedraw
      = false ∧
    (∀ c : Comp σ ε, ∀ s : σ, pendingInv c → pendingInv (changeState cfg c s)) := by
  have e1s : (changeState cfg c0 s1).state = s1 := changeState_state cfg c0 s1
  have e1d : (changeState cfg c0 s1).deferredRedraw = true :=
    changeState_deferredRedraw_of_ne cfg c0 s1 h1
  have e1q : (changeState cfg c0 s1).taskQueue = 1 := by
    rw [changeState_taskQueue_of_ne cfg c0 s1 h1, hb]
    simp [hq]
  have h2x : (changeState cfg c0 s1).state ≠ s2 := by rw [e1s]; exact h2
  have e2s : (changeState cfg (changeState cfg c0 s1) s2).state = s2 :=
    changeState_state cfg _ s2
  have e2d : (changeState cfg (changeState cfg c0 s1) s2).deferredRedraw = true :=
    changeState_deferredRedraw_of_ne cfg _ s2 h2x
  have e2q : (changeState cfg (changeState cfg c0 s1) s2).taskQueue = 1 := by
    rw [changeState_taskQueue_of_pending cfg _ s2 e1d, e1q]
  have h3x : (changeState cfg (changeState cfg c0 s1) s2).state ≠ s3 := by
    rw [e2s]; exact h3
  have e3s : (changeState cfg (changeState cfg (changeState cfg c0 s1) s2) s3).state = s3 :=
    changeState_state cfg _ s3
  have e3d :
      (changeState cfg (changeState cfg (changeState cfg c0 s1) s2) s3).deferredRedraw
        = true :=
    changeState_deferredRedraw_of_ne cfg _ s3 h3x
  have e3q :
      (changeState cfg (changeState cfg (changeState cfg c0 s1) s2) s3).taskQueue = 1 := by
    rw [changeState_taskQueue_of_pending cfg _ s3 e2d, e2q]
  have e3e :
      (changeState cfg (changeState cfg (changeState cfg c0 s1) s2) s3).emitEvals
        = c0.emitEvals ++ [(c0.state, s1), (s1, s2), (s2, s3)] := by
    rw [changeState_emitEvals_of_ne cfg _ s3 h3x,
      changeState_emitEvals_of_ne cfg _ s2 h2x,
      changeState_emitEvals_of_ne cfg _ s1 h1, e1s, e2s]
    simp
  have e3r :
      (changeState cfg (changeState cfg (changeState cfg c0 s1) s2) s3).redrawLog
        = c0.redrawLog := by
    rw [changeState_redrawLog, changeState_redrawLog, changeState_redrawLog]
  refine ⟨e1q, e1d, e2q, e3q, e3s, e3e, ?_, ?_, rfl, ?_⟩
  · show (redraw cfg _).redrawLog = c0.redrawLog ++ [s3]
    rw [redraw_redrawLog, e3r, e3s]
  · show (redraw cfg _).taskQueue - 1 = 0
    rw [redraw_taskQueue_of_pending cfg _ e3d, e3q]
  · intro c s h
    exact changeState_pendingInv cfg c s h

theorem claim_C2_witness :
    (changeState cfgW compW 1).taskQueue = 1 ∧
    (changeState cfgW compW 1).deferredRedraw = true ∧
    (changeState cfgW (changeState cfgW compW 1) 2).taskQueue = 1 ∧
    (changeState cfgW (changeState cfgW (changeState cfgW compW 1) 2) 3).taskQueue = 1 ∧
    (changeState cfgW (changeState cfgW (changeState cfgW compW 1) 2) 3).state = 3 ∧
    (changeState cfgW (changeState cfgW (changeState cfgW compW 1) 2) 3).emitEvals
      = compW.emitEvals ++ [(compW.state, 1), (1, 2), (2, 3)] ∧
    (runDeferredTask cfgW
        (changeState cfgW (changeState cfgW (changeState cfgW compW 1) 2) 3)).redrawLog
      = compW.redrawLog ++ [3] ∧
    (runDeferredTask cfgW
        (changeState cfgW (changeState cfgW (changeState cfgW compW 1) 2) 3)).taskQueue = 0 ∧
    (runDeferredTask cfgW
        (changeState cfgW (changeState cfgW (changeState cfgW compW 1) 2) 3)).deferredRedraw
      = false ∧
    (∀ c : Comp Nat Nat, ∀ s : Nat, pendingInv c → pendingInv (changeState cfgW c s)) :=
  claim_C2 cfgW compW 1 2 3 rfl rfl (by decide) (by decide) (by decide)

/-- Claim C6 counterexample: in the latest revision's `_redraw` with the
supported option `redrawMode: "replace"`, a connected redraw whose mounted
root and candidate share the same node kind (`div`) but are not equal is
whole-subtree swapped — one replacement mutation, no in-place merge —
refuting "when the kinds match, the mounted tree is instead merged in place
node-by-node". -/
theorem claim_C6_cex :
    compW6b.root.nodeName = (cfgDiv.render compW6b.state).nodeName ∧
    compW6b.root ≠ cfgDiv.render compW6b.state ∧
    (redrawV2 "replace" true cfgDiv compW6b).root = cfgDiv.render compW6b.state ∧
    (redrawV2 "replace" true cfgDiv compW6b).mutLog
      = compW6b.mutLog ++ [HostMut.replace compW6b.root (cfgDiv.render compW6b.state)] := by
  decide

/-- Claim C6 (amended): in `src/sources/core.ts`'s `_redraw` — and in the
latest `src/index.ts` revision under its default `redrawMode` `"update"` —
a candidate whose root node kind differs from the mounted root's kind is
installed by a whole-subtree swap, one replacement mutation and never a
patch, while a kind-matching candidate is merged into the mounted tree in
place (only patch mutations, the merged tree matching the candidate), with
any matched pair of already structurally equal subtrees skipped outright.
In the latest revision with `redrawMode` `"replace"`, however, every
connected non-equal redraw performs the whole-subtree swap regardless of
node kind. -/
theorem claim_C6 [DecidableEq σ] (cfg : Config σ ε) (c : Comp σ ε) :
    (c.root ≠ cfg.render c.state →
      c.root.nodeName ≠ (cfg.render c.state).nodeName →
        (redraw cfg c).root = cfg.render c.state ∧
        (redraw cfg c).mutLog
          = c.mutLog ++ [HostMut.replace c.root (cfg.render c.state)]) ∧
    (c.root ≠ cfg.render c.state →
      c.root.nodeName = (cfg.render c.state).nodeName →
        (redraw cfg c).root = cfg.render c.state ∧
        (redraw cfg c).mutLog = c.mutLog ++ (morph c.root (cfg.render c.state)).2 ∧
        (∀ m ∈ (morph c.root (cfg.render c.state)).2, m = HostMut.patch)) ∧
    (∀ f t : VTree, f = t → morph f t = (f, [])) ∧
    (∀ mode : String, c.root ≠ cfg.render c.state →
      (mode = "replace" ∨ c.root.nodeName ≠ (cfg.render c.state).nodeName) →
        (redrawV2 mode true cfg c).root = cfg.render c.state ∧
        (redrawV2 mode true cfg c).mutLog
          = c.mutLog ++ [HostMut.replace c.root (cfg.render c.state)]) ∧
    (c.root ≠ cfg.render c.state →
      c.root.nodeName = (cfg.render c.state).nodeName →
        (redrawV2 "update" true cfg c).root = cfg.render c.state ∧
        (redrawV2 "update" true cfg c).mutLog
          = c.mutLog ++ (morph c.root (cfg.render c.state)).2) := by
  refine ⟨?_, ?_, ?_, ?_, ?_⟩
  · intro hne hk
    unfold redraw
    rw [if_neg hne, if_pos hk]
    exact ⟨by rw [maybeViewupdated_root], by rw [maybeViewupdated_mutLog]⟩
  · intro hne hk
    unfold redraw
    rw [if_neg hne, if_neg (fun hcon => hcon hk)]
    refine ⟨?_, by rw [maybeViewupdated_mutLog], morph_muts c.root (cfg.render c.state)⟩
    rw [maybeViewupdated_root]
    exact morph_fst c.root (cfg.render c.state)
  · intro f t hft
    subst hft
    exact morph_self f
  · intro mode hne hdis
    unfold redrawV2
    rw [if_neg (by simp), if_neg hne, if_pos hdis]
    exact ⟨by rw [maybeViewupdated_root], by rw [maybeViewupdated_mutLog]⟩
  · intro hne hk
    have hnot : ¬("update" = "replace" ∨ c.root.nodeName ≠ (cfg.render c.state).nodeName) := by
      rintro (hm | hkk)
      · exact absurd hm (by decide)
      · exact hkk hk
    unfold redrawV2
    rw [if_neg (by simp), if_neg hne, if_neg hnot]
    refine ⟨?_, by rw [maybeViewupdated_mutLog]⟩
    rw [maybeViewupdated_root]
    exact morph_fst c.root (cfg.render c.state)

theorem claim_C6_witness :
    ((redraw cfgDiv compW).root = cfgDiv.render compW.state ∧
     (redraw cfgDiv compW).mutLog
       = compW.mutLog ++ [HostMut.replace compW.root (cfgDiv.render compW.state)]) ∧
    ((redraw cfgDiv compW6b).root = cfgDiv.render compW6b.state ∧
     (redraw cfgDiv compW6b).mutLog
       = compW6b.mutLog ++ (morph compW6b.root (cfgDiv.render compW6b.state)).2 ∧
     (∀ m ∈ (morph compW6b.root (cfgDiv.render compW6b.state)).2, m = HostMut.patch)) ∧
    morph (VTree.node "p" [] .nil .nil) (VTree.node "p" [] .nil .nil)
      = (VTree.node "p" [] .nil .nil, []) ∧
    ((redrawV2 "replace" true cfgDiv compW6b).root = cfgDiv.render compW6b.state ∧
     (redrawV2 "replace" true cfgDiv compW6b).mutLog
       = compW6b.mutLog ++ [HostMut.replace compW6b.root (cfgDiv.render compW6b.state)]) ∧
    ((redrawV2 "update" true cfgDiv compW6b).root = cfgDiv.render compW6b.state ∧
     (redrawV2 "update" true cfgDiv compW6b).mutLog
       = compW6b.mutLog ++ (morph compW6b.root (cfgDiv.render compW6b.state)).2) :=
  ⟨(claim_C6 cfgDiv compW).1 (by decide) (by decide),
   (claim_C6 cfgDiv compW6b).2.1 (by decide) (by decide),
   (claim_C6 cfgDiv compW).2.2.1 _ _ rfl,
   (claim_C6 cfgDiv compW6b).2.2.2.1 "replace" (by decide) (Or.inl rfl),
   (claim_C6 cfgDiv compW6b).2.2.2.2 (by decide) (by decide)⟩

/-- Claim C7: the emission pass iterates the records in declaration order;
each record whose predicate holds of (old, new) dispatches its emitter — or
each emitter of its ordered list, in list order — applied to the post-commit
state, every record with a true predicate fires in the same pass, and no
emitter of a record with a false predicate contributes anything.  In the
end-to-end scenario (initial state 0, increment handler, a record firing
when the new state reaches 3), three increment events make the synthesized
event fire exactly once, on the third commit, carrying state 3. -/
theorem claim_C7 :
    (∀ (σ ε : Type) (records : List (EmitRecord σ ε)) (oldS newS : σ),
        maybeEmitEvents records oldS newS
          = records.flatMap (fun r =>
              if r.when oldS newS then (emitters r.emit).map (fun e => e newS) else [])) ∧
    (handleEvent cfgC7 (fun s => s + 1) compC7).dispatched = [] ∧
    (handleEvent cfgC7 (fun s => s + 1)
        (handleEvent cfgC7 (fun s => s + 1) compC7)).dispatched = [] ∧
    (handleEvent cfgC7 (fun s => s + 1)
        (handleEvent cfgC7 (fun s => s + 1)
          (handleEvent cfgC7 (fun s => s + 1) compC7))).dispatched
      = [("reachedThree", 3)] ∧
    (handleEvent cfgC7 (fun s => s + 1)
        (handleEvent cfgC7 (fun s => s + 1)
          (handleEvent cfgC7 (fun s => s + 1) compC7))).state = 3 := by
  refine ⟨?_, ?_, ?_, ?_, ?_⟩
  · intro σ ε records oldS newS
    rw [maybeEmitEvents_eq_bind]
    rfl
  · decide
  · decide
  · decide
  · decide

/-- Claim C8: after a commit of the form-capable specialization, the ten
validity flags returned by `validate(state)` are each compared against the
host's previous values, a missing flag treated as false; the new flags and
message are pushed to the host exactly when at least one of the ten flags
differs.  With `validate` constantly reporting `{valueMissing: true}`, two
successive transitions trigger the host validity-push on the first
transition only. -/
theorem claim_C8 :
    (∀ (v : Validity) (flags : VFlags),
        validityDiffers v flags = true ↔
          (v.valueMissing ≠ flags.valueMissing.getD false ∨
           v.stepMismatch ≠ flags.stepMismatch.getD false ∨
           v.badInput ≠ flags.badInput.getD false ∨
           v.customError ≠ flags.customError.getD false ∨
           v.patternMismatch ≠ flags.patternMismatch.getD false ∨
           v.rangeOverflow ≠ flags.rangeOverflow.getD false ∨
           v.rangeUnderflow ≠ flags.rangeUnderflow.getD false ∨
           v.tooLong ≠ flags.tooLong.getD false ∨
           v.tooShort ≠ flags.tooShort.getD false ∨
           v.typeMismatch ≠ flags.typeMismatch.getD false)) ∧
    (∀ (σ ε : Type) [DecidableEq σ] (fcfg : FormConfig σ ε) (fc : FormComp σ ε) (s : σ),
        (formChangeState fcfg fc s).validityPushes =
          fc.validityPushes +
            (match fcfg.validate with
             | none => 0
             | some v =>
               if validityDiffers fc.validity
                   (v (changeState fcfg.toConfig fc.toComp s).state).1 then 1 else 0)) ∧
    (formChangeState fcfgC8 formC8 1).validityPushes = 1 ∧
    (formChangeState fcfgC8 formC8 1).validity.valueMissing = true ∧
    (formChangeState fcfgC8 (formChangeState fcfgC8 formC8 1) 2).validityPushes = 1 := by
  refine ⟨?_, ?_, ?_, ?_, ?_⟩
  · intro v flags
    simp [validityDiffers, Bool.or_eq_true, bne_iff_ne, or_assoc]
  · intro σ ε _ fcfg fc s
    unfold formChangeState maybeValidate
    split
    · next heq => simp
    · next v heq => split <;> simp
  · decide
  · decide
  · decide

/-- Claim C9 counterexample: a declared projection with a write path (a
`set` function and its type-guard `predicate`) and no getter; the
descriptor `_defineProps` installs for it carries no write accessor at all
(and no read accessor either), so no external write ever reaches the setter
or the commit operation. -/
theorem claim_C9_cex :
    setOnlyProp.set?.isSome = true ∧
    has_getter setOnlyProp = false ∧
    (defineProp setOnlyProp).set? = none ∧
    (defineProp setOnlyProp).get? = none :=
  ⟨rfl, rfl, rfl, rfl⟩

/-- Claim C9 (amended): `_defineProps` only ever installs read accessors —
a projection with a getter gets a read accessor computed from the live
state, and no projection, write path or not, gets a write accessor; the
declared `set`/`predicate` write path is ignored, so external writes never
invoke the setter or commit a new state. -/
theorem claim_C9 {σ τ : Type} (props : List (String × PropSpec σ τ))
    (entry : String × Accessor σ τ) (hmem : entry ∈ defineProps props) :
    entry.2.set? = none ∧
    ∃ p : PropSpec σ τ, (entry.1, p) ∈ props ∧ entry.2 = defineProp p ∧
      entry.2.get? = (if has_getter p then p.get? else none) := by
  unfold defineProps at hmem
  rcases List.mem_map.mp hmem with ⟨q, hq, heq⟩
  refine ⟨?_, q.2, ?_, ?_, ?_⟩
  · rw [← heq]
    show (defineProp q.2).set? = none
    unfold defineProp
    split <;> rfl
  · rw [← heq]
    exact hq
  · rw [← heq]
  · rw [← heq]
    show (defineProp q.2).get? = _
    unfold defineProp
    split <;> rfl

theorem claim_C9_witness :
    (("value", defineProp getOnlyProp) : String × Accessor Nat Nat).2.set? = none ∧
    ∃ p : PropSpec Nat Nat,
      ("value", p) ∈ propsW9 ∧
      (("value", defineProp getOnlyProp) : String × Accessor Nat Nat).2 = defineProp p ∧
      (("value", defineProp getOnlyProp) : String × Accessor Nat Nat).2.get?
        = (if has_getter p then p.get? else none) :=
  claim_C9 propsW9 ("value", defineProp getOnlyProp) (List.mem_singleton.mpr rfl)

/-- Claim C10: every commit of the form-capable specialization — including
one whose argument is reference-identical to the current state, which the
base component treats as a full no-op — still pushes `formValue(state)` to
the host form facility and re-runs the validation step; identity commits
are side-effect-free only for the base component. -/
theorem claim_C10 [DecidableEq σ] (fcfg : FormConfig σ ε) (fc : FormComp σ ε) (s : σ) :
    (formChangeState fcfg fc s).formValuePushes
      = fc.formValuePushes ++ [fcfg.formValue s] ∧
    (formChangeState fcfg fc s).validateRuns
      = fc.validateRuns + (if fcfg.validate.isSome then 1 else 0) ∧
    (fc.state = s → (formChangeState fcfg fc s).toComp = fc.toComp) := by
  refine ⟨?_, ?_, ?_⟩
  · unfold formChangeState
    rw [maybeValidate_formValuePushes]
    show fc.formValuePushes ++ [fcfg.formValue (changeState fcfg.toConfig fc.toComp s).state]
      = fc.formValuePushes ++ [fcfg.formValue s]
    rw [changeState_state]
  · unfold formChangeState
    rw [maybeValidate_validateRuns]
  · intro h
    unfold formChangeState
    rw [maybeValidate_toComp, changeState_self fcfg.toConfig fc.toComp s h]

theorem claim_C10_witness :
    (formChangeState fcfgC8 formC8 0).formValuePushes
      = formC8.formValuePushes ++ [fcfgC8.formValue 0] ∧
    (formChangeState fcfgC8 formC8 0).validateRuns
      = formC8.validateRuns + (if fcfgC8.validate.isSome then 1 else 0) ∧
    (formChangeState fcfgC8 formC8 0).toComp = formC8.toComp :=
  ⟨(claim_C10 fcfgC8 formC8 0).1,
   (claim_C10 fcfgC8 formC8 0).2.1,
   (claim_C10 fcfgC8 formC8 0).2.2 rfl⟩
